import Mathlib

/-!
Verification of the notebook `docs/notebooks/Add new ecoinvent version.ipynb`
from the `rower` repository.

The notebook is a linear script of calls into external libraries
(`bw2data`, `bw2io`, `ecoinvent_interface`, `rower.updating`).  We embed it
shallowly: the external state the script consults (the project store and
the imported databases) is an abstract `World`; running the script produces
the list of external calls it makes (`Event`s) together with an `Outcome`
(normal completion, or an `AssertionError` raised by the verification loop).
-/

namespace Rower

/-- A dataset of a database; the notebook only reads its `'location'` field
(`ds['location']`). -/
structure Dataset where
  location : String
deriving DecidableEq, Repr

/-- The external state the notebook consults: the project store
(`bd.projects`, membership of project names) and the contents each database
name resolves to (`bd.Database(name)`). -/
structure World where
  projects : List String
  database : String → List Dataset

/-- One call made by the notebook to an external collaborator, in the order
the calls appear in the source. -/
inductive Event where
  | deleteProject (name : String) (deleteDir : Bool)
  | setCurrent (name : String)
  | settingsInit
  | ecoinventReleaseInit
  | importEcoinventRelease (version : String) (systemModel : String) (lcia : Bool)
  | databaseRead (name : String)
  | updateEcoinventDefinitions (names : List String)
deriving DecidableEq, Repr

/-- How a run of the notebook ends: normally, or with the `assert locations`
statement raising `AssertionError` while verifying database `db`. -/
inductive Outcome where
  | ok
  | assertionError (db : String)
deriving DecidableEq, Repr

/-- Cell 2: `delete = True`. -/
def delete : Bool := true

/-- Cell 6: `VERSION = "3.8"`. -/
def VERSION : String := "3.8"

/-- The fixed tuple `("cutoff", "apos", "consequential")` iterated by
the import loop, the verification loop and the final list comprehension. -/
def systemModels : List String := ["cutoff", "apos", "consequential"]

/-- The project name `"RoW generation"`. -/
def projectName : String := "RoW generation"

/-- The f-string `f"ecoinvent-{VERSION}-{system_model}"`. -/
def dbName (systemModel : String) : String :=
  "ecoinvent-" ++ VERSION ++ "-" ++ systemModel

/-- Embedding of Python's `str.lower()`: lower-case each character. -/
def lower (s : String) : String :=
  ⟨s.data.map Char.toLower⟩

/-- The set comprehension
`{ds['location'].lower() for ds in bd.Database(db_name)}`. -/
def locations (w : World) (name : String) : Finset String :=
  ((w.database name).map (fun ds => lower ds.location)).toFinset

/-- Cell 3: `if delete and "RoW generation" in bd.projects:
bd.projects.delete_project("RoW generation", True)`. -/
def deleteCell (deleteFlag : Bool) (w : World) : List Event :=
  if deleteFlag ∧ projectName ∈ w.projects then
    [.deleteProject projectName true]
  else []

/-- Cell 7: the import loop
`for system_model in ("cutoff", "apos", "consequential"):
bi.import_ecoinvent_release(version=VERSION, system_model=system_model,
lcia=False)`. -/
def importEvents : List Event :=
  systemModels.map (fun systemModel =>
    .importEcoinventRelease VERSION systemModel false)

/-- Cell 8: the verification loop.  For each system model it constructs
`bd.Database(db_name)` and iterates it to build `locations` (first read),
runs `assert locations` — aborting the loop with `AssertionError` if the set
is empty — and otherwise prints `db_name`, `'roe' in locations` and
`len(bd.Database(db_name))` (second read). -/
def verifyLoop (w : World) : List String → List Event × Outcome
  | [] => ([], .ok)
  | systemModel :: rest =>
      let name := dbName systemModel
      if locations w name = ∅ then
        ([.databaseRead name], .assertionError name)
      else
        let r := verifyLoop w rest
        (.databaseRead name :: .databaseRead name :: r.1, r.2)

/-- The full notebook, top to bottom: the guarded project deletion (cell 3),
`bd.projects.set_current("RoW generation")` (cell 4),
`my_settings = Settings()` and `release = EcoinventRelease(my_settings)`
(cell 5), the import loop (cell 7), the verification loop (cell 8), and —
only if no assertion failed —
`update_ecoinvent_definitions([f'ecoinvent-{VERSION}-{system_model}' for
system_model in ("cutoff", "apos", "consequential")])` (cell 10). -/
def run (deleteFlag : Bool) (w : World) : List Event × Outcome :=
  let pre : List Event :=
    deleteCell deleteFlag w
      ++ [.setCurrent projectName, .settingsInit, .ecoinventReleaseInit]
      ++ importEvents
  let v := verifyLoop w systemModels
  match v.2 with
  | .ok => (pre ++ v.1 ++ [.updateEcoinventDefinitions (systemModels.map dbName)], .ok)
  | .assertionError n => (pre ++ v.1, .assertionError n)

/-- Recognises the import calls in a trace. -/
def Event.isImport : Event → Bool
  | .importEcoinventRelease _ _ _ => true
  | _ => false

/-- Recognises the region-definition-update calls in a trace. -/
def Event.isUpdate : Event → Bool
  | .updateEcoinventDefinitions _ => true
  | _ => false

/-- The events emitted by a verification loop in which every assertion
passes: two database reads per system model. -/
def verifyEvents : List String → List Event
  | [] => []
  | systemModel :: rest =>
      .databaseRead (dbName systemModel) :: .databaseRead (dbName systemModel)
        :: verifyEvents rest

/-- Recognises the project-deletion calls in a trace. -/
def Event.isDelete : Event → Bool
  | .deleteProject _ _ => true
  | _ => false

/-- A sample world: the project already exists and every database resolves
to a non-empty list of datasets. -/
def wFull : World :=
  { projects := ["RoW generation"], database := fun _ => [⟨"RoW"⟩, ⟨"GLO"⟩] }

/-- A sample world with different project-store and database contents from
`wFull`, but still containing the project and non-empty databases. -/
def wFull2 : World :=
  { projects := ["RoW generation", "default"], database := fun _ => [⟨"CH"⟩] }

/-- A sample world in which the project does not exist yet. -/
def wNoProject : World :=
  { projects := [], database := fun _ => [⟨"RoW"⟩, ⟨"GLO"⟩] }

/-- A sample world in which every database is empty, so the first
verification assertion fails. -/
def wEmptyDb : World :=
  { projects := ["RoW generation"], database := fun _ => [] }

/-! ### Helper lemmas -/

theorem toNat_ofNat_of_upper (n : Nat) (h1 : 65 ≤ n) (h2 : n ≤ 90) :
    (Char.ofNat (n + 32)).toNat = n + 32 := by
  interval_cases n <;> decide

theorem char_toLower_idem (c : Char) : c.toLower.toLower = c.toLower := by
  unfold Char.toLower
  by_cases h : c.toNat ≥ 65 ∧ c.toNat ≤ 90
  · simp only [if_pos h]
    have hn := toNat_ofNat_of_upper c.toNat h.1 h.2
    rw [if_neg]
    rw [hn]
    omega
  · simp only [if_neg h]

theorem lower_idem (s : String) : lower (lower s) = lower s := by
  simp only [lower, List.map_map]
  congr 1
  exact List.map_congr_left fun c _ => char_toLower_idem c

theorem mem_locations (w : World) (name s : String) :
    s ∈ locations w name ↔ ∃ ds ∈ w.database name, s = lower ds.location := by
  simp [locations, List.mem_toFinset, List.mem_map, eq_comm]

theorem verifyLoop_ok_iff (w : World) (l : List String) :
    (verifyLoop w l).2 = .ok ↔ ∀ sm ∈ l, locations w (dbName sm) ≠ ∅ := by
  induction l with
  | nil => simp [verifyLoop]
  | cons sm rest ih =>
      by_cases hc : locations w (dbName sm) = ∅
      · simp [verifyLoop, hc]
      · simp [verifyLoop, hc, ih]

theorem verifyLoop_fst_of_ok (w : World) (l : List String)
    (h : (verifyLoop w l).2 = .ok) : (verifyLoop w l).1 = verifyEvents l := by
  induction l with
  | nil => simp [verifyLoop, verifyEvents]
  | cons sm rest ih =>
      by_cases hc : locations w (dbName sm) = ∅
      · simp [verifyLoop, hc] at h
      · simp only [verifyLoop, if_neg hc] at h ⊢
        simp [verifyEvents, ih h]

theorem verifyLoop_fst_reads (w : World) (l : List String) :
    ∀ e ∈ (verifyLoop w l).1, ∃ n, e = .databaseRead n := by
  induction l with
  | nil => simp [verifyLoop]
  | cons sm rest ih =>
      by_cases hc : locations w (dbName sm) = ∅
      · simp [verifyLoop, hc]
      · simp only [verifyLoop, if_neg hc, List.mem_cons]
        rintro e (rfl | rfl | he)
        · exact ⟨_, rfl⟩
        · exact ⟨_, rfl⟩
        · exact ih e he

theorem verifyLoop_filter_isImport (w : World) (l : List String) :
    (verifyLoop w l).1.filter Event.isImport = [] := by
  induction l with
  | nil => simp [verifyLoop]
  | cons sm rest ih =>
      by_cases hc : locations w (dbName sm) = ∅
      · simp [verifyLoop, hc, Event.isImport]
      · simp [verifyLoop, hc, Event.isImport, ih]

theorem verifyLoop_filter_isUpdate (w : World) (l : List String) :
    (verifyLoop w l).1.filter Event.isUpdate = [] := by
  induction l with
  | nil => simp [verifyLoop]
  | cons sm rest ih =>
      by_cases hc : locations w (dbName sm) = ∅
      · simp [verifyLoop, hc, Event.isUpdate]
      · simp [verifyLoop, hc, Event.isUpdate, ih]

theorem run_snd (f : Bool) (w : World) :
    (run f w).2 = (verifyLoop w systemModels).2 := by
  unfold run
  cases h : (verifyLoop w systemModels).2 <;> simp [h]

theorem run_fst_of_ok (f : Bool) (w : World)
    (h : (verifyLoop w systemModels).2 = .ok) :
    (run f w).1 =
      deleteCell f w
        ++ [.setCurrent projectName, .settingsInit, .ecoinventReleaseInit]
        ++ importEvents ++ verifyEvents systemModels
        ++ [.updateEcoinventDefinitions (systemModels.map dbName)] := by
  simp only [run]
  rw [h]
  simp [verifyLoop_fst_of_ok w systemModels h]

theorem run_fst_of_err (f : Bool) (w : World) (n : String)
    (h : (verifyLoop w systemModels).2 = .assertionError n) :
    (run f w).1 =
      deleteCell f w
        ++ [.setCurrent projectName, .settingsInit, .ecoinventReleaseInit]
        ++ importEvents ++ (verifyLoop w systemModels).1 := by
  simp only [run]
  rw [h]

theorem deleteCell_filter_isImport (f : Bool) (w : World) :
    (deleteCell f w).filter Event.isImport = [] := by
  unfold deleteCell
  split <;> simp [Event.isImport]

theorem deleteCell_filter_isUpdate (f : Bool) (w : World) :
    (deleteCell f w).filter Event.isUpdate = [] := by
  unfold deleteCell
  split <;> simp [Event.isUpdate]

theorem deleteCell_filter_isDelete (f : Bool) (w : World) :
    (deleteCell f w).filter Event.isDelete = deleteCell f w := by
  unfold deleteCell
  split <;> simp [Event.isDelete]

theorem mem_deleteCell_iff (f : Bool) (w : World) (e : Event) :
    e ∈ deleteCell f w ↔
      (f = true ∧ projectName ∈ w.projects) ∧ e = .deleteProject projectName true := by
  unfold deleteCell
  split
  · rename_i hc
    simp only [List.mem_singleton]
    exact ⟨fun he => ⟨hc, he⟩, fun h => h.2⟩
  · rename_i hc
    simp only [List.not_mem_nil, false_iff]
    exact fun h => hc h.1

theorem verifyEvents_reads (l : List String) :
    ∀ e ∈ verifyEvents l, ∃ n, e = Event.databaseRead n := by
  induction l with
  | nil => simp [verifyEvents]
  | cons sm rest ih =>
      simp only [verifyEvents, List.mem_cons]
      rintro e (rfl | rfl | he)
      · exact ⟨_, rfl⟩
      · exact ⟨_, rfl⟩
      · exact ih e he

theorem verifyEvents_filter_isImport (l : List String) :
    (verifyEvents l).filter Event.isImport = [] := by
  induction l <;> simp [verifyEvents, Event.isImport, *]

theorem verifyEvents_filter_isUpdate (l : List String) :
    (verifyEvents l).filter Event.isUpdate = [] := by
  induction l <;> simp [verifyEvents, Event.isUpdate, *]

theorem verifyEvents_filter_isDelete (l : List String) :
    (verifyEvents l).filter Event.isDelete = [] := by
  induction l <;> simp [verifyEvents, Event.isDelete, *]

theorem verifyLoop_filter_isDelete (w : World) (l : List String) :
    (verifyLoop w l).1.filter Event.isDelete = [] := by
  induction l with
  | nil => simp [verifyLoop]
  | cons sm rest ih =>
      by_cases hc : locations w (dbName sm) = ∅
      · simp [verifyLoop, hc, Event.isDelete]
      · simp [verifyLoop, hc, Event.isDelete, ih]

theorem run_filter_isImport (f : Bool) (w : World) :
    (run f w).1.filter Event.isImport = importEvents := by
  cases ho : (verifyLoop w systemModels).2 with
  | ok =>
      rw [run_fst_of_ok f w ho]
      simp [List.filter_append, deleteCell_filter_isImport,
        verifyEvents_filter_isImport, importEvents, systemModels, Event.isImport]
  | assertionError n =>
      rw [run_fst_of_err f w n ho]
      simp [List.filter_append, deleteCell_filter_isImport,
        verifyLoop_filter_isImport, importEvents, systemModels, Event.isImport]

theorem run_filter_isUpdate_of_ok (f : Bool) (w : World)
    (h : (verifyLoop w systemModels).2 = .ok) :
    (run f w).1.filter Event.isUpdate =
      [.updateEcoinventDefinitions (systemModels.map dbName)] := by
  rw [run_fst_of_ok f w h]
  simp [List.filter_append, deleteCell_filter_isUpdate,
    verifyEvents_filter_isUpdate, importEvents, systemModels, Event.isUpdate]

theorem run_filter_isUpdate_of_err (f : Bool) (w : World) (n : String)
    (h : (verifyLoop w systemModels).2 = .assertionError n) :
    (run f w).1.filter Event.isUpdate = [] := by
  rw [run_fst_of_err f w n h]
  simp [List.filter_append, deleteCell_filter_isUpdate,
    verifyLoop_filter_isUpdate, importEvents, systemModels, Event.isUpdate]

theorem run_filter_isDelete (f : Bool) (w : World) :
    (run f w).1.filter Event.isDelete = deleteCell f w := by
  cases ho : (verifyLoop w systemModels).2 with
  | ok =>
      rw [run_fst_of_ok f w ho]
      simp [List.filter_append, deleteCell_filter_isDelete,
        verifyEvents_filter_isDelete, importEvents, systemModels, Event.isDelete]
  | assertionError n =>
      rw [run_fst_of_err f w n ho]
      simp [List.filter_append, deleteCell_filter_isDelete,
        verifyLoop_filter_isDelete, importEvents, systemModels, Event.isDelete]

/-! ### Claims -/

/-- C1: every run calls `bi.import_ecoinvent_release` exactly once per
system-model label, in the order `"cutoff"`, `"apos"`, `"consequential"`,
each call receiving the version string `VERSION = "3.8"`, the current label,
and `lcia=False`. -/
theorem claim_C1 (f : Bool) (w : World) :
    (run f w).1.filter Event.isImport =
      [.importEcoinventRelease VERSION "cutoff" false,
       .importEcoinventRelease VERSION "apos" false,
       .importEcoinventRelease VERSION "consequential" false]
    ∧ VERSION = "3.8" := by
  refine ⟨?_, rfl⟩
  rw [run_filter_isImport]
  rfl

/-- C2: in a run that completes normally, `update_ecoinvent_definitions` is
called exactly once, with argument the list of the three constructed
database names, each formed as `f"ecoinvent-{VERSION}-{system_model}"` over
the same system models that were imported and verified. -/
theorem claim_C2 (f : Bool) (w : World) (h : (run f w).2 = Outcome.ok) :
    (run f w).1.filter Event.isUpdate =
      [.updateEcoinventDefinitions
        ["ecoinvent-3.8-cutoff", "ecoinvent-3.8-apos", "ecoinvent-3.8-consequential"]]
    ∧ systemModels.map dbName =
        ["ecoinvent-3.8-cutoff", "ecoinvent-3.8-apos", "ecoinvent-3.8-consequential"] := by
  rw [run_snd] at h
  refine ⟨?_, by decide⟩
  rw [run_filter_isUpdate_of_ok f w h]
  decide

/-- Witness for C2: at the concrete world `wFull` the run completes
normally and the conclusion of `claim_C2` holds. -/
theorem claim_C2_witness :
    (run delete wFull).2 = Outcome.ok ∧
      ((run delete wFull).1.filter Event.isUpdate =
        [.updateEcoinventDefinitions
          ["ecoinvent-3.8-cutoff", "ecoinvent-3.8-apos", "ecoinvent-3.8-consequential"]]
      ∧ systemModels.map dbName =
          ["ecoinvent-3.8-cutoff", "ecoinvent-3.8-apos", "ecoinvent-3.8-consequential"]) :=
  ⟨by decide, claim_C2 delete wFull (by decide)⟩

/-- C3: the run raises `AssertionError` if and only if some database's
lower-cased location set is empty; equivalently it completes normally if
and only if all three location sets are non-empty. -/
theorem claim_C3 (f : Bool) (w : World) :
    ((run f w).2 = Outcome.ok ↔ ∀ sm ∈ systemModels, locations w (dbName sm) ≠ ∅)
    ∧ ((∃ n, (run f w).2 = Outcome.assertionError n) ↔
        ∃ sm ∈ systemModels, locations w (dbName sm) = ∅) := by
  have hok : (run f w).2 = Outcome.ok ↔
      ∀ sm ∈ systemModels, locations w (dbName sm) ≠ ∅ := by
    rw [run_snd]
    exact verifyLoop_ok_iff w systemModels
  refine ⟨hok, ?_, ?_⟩
  · rintro ⟨n, hn⟩
    by_contra hc
    push_neg at hc
    have := hok.mpr hc
    rw [hn] at this
    exact Outcome.noConfusion this
  · rintro ⟨sm, hsm, hemp⟩
    cases hr : (run f w).2 with
    | ok => exact absurd hemp (hok.mp hr sm hsm)
    | assertionError n => exact ⟨n, rfl⟩

/-- C4: when the project `"RoW generation"` exists in the project store (and
the script's `delete` flag is its constant `True`), the run first deletes
the project and immediately afterwards selects it as current. -/
theorem claim_C4 (w : World) (h : projectName ∈ w.projects) :
    ∃ rest, (run delete w).1 =
      Event.deleteProject projectName true :: Event.setCurrent projectName :: rest := by
  have hd : deleteCell delete w = [Event.deleteProject projectName true] := by
    unfold deleteCell
    rw [if_pos ⟨rfl, h⟩]
  cases ho : (verifyLoop w systemModels).2 with
  | ok =>
      refine ⟨[Event.settingsInit, Event.ecoinventReleaseInit] ++ importEvents
        ++ verifyEvents systemModels
        ++ [Event.updateEcoinventDefinitions (systemModels.map dbName)], ?_⟩
      rw [run_fst_of_ok delete w ho, hd]
      simp
  | assertionError n =>
      refine ⟨[Event.settingsInit, Event.ecoinventReleaseInit] ++ importEvents
        ++ (verifyLoop w systemModels).1, ?_⟩
      rw [run_fst_of_err delete w n ho, hd]
      simp

/-- Witness for C4: in `wFull` the project exists and the trace starts with
the deletion followed by the selection. -/
theorem claim_C4_witness :
    projectName ∈ wFull.projects ∧
      ∃ rest, (run delete wFull).1 =
        Event.deleteProject projectName true :: Event.setCurrent projectName :: rest :=
  ⟨by decide, claim_C4 wFull (by decide)⟩

/-- Counterexample to C5 as stated: two program states that differ only in
whether the project already exists give different call sequences — the
conditional deletion branch is taken in one and skipped in the other. -/
theorem claim_C5_counterexample :
    ¬ ((run delete wFull).1 = (run delete wNoProject).1) := by decide

/-- C5 (amended): the script is a linear sequence of API calls whose only
branches are the guard on project deletion and the non-emptiness assertion:
any two states that agree on whether the project exists and whose runs both
pass all assertions produce the identical call sequence. -/
theorem claim_C5 (f : Bool) (w1 w2 : World)
    (hp : projectName ∈ w1.projects ↔ projectName ∈ w2.projects)
    (h1 : (run f w1).2 = Outcome.ok) (h2 : (run f w2).2 = Outcome.ok) :
    (run f w1).1 = (run f w2).1 := by
  rw [run_snd] at h1 h2
  have hd : deleteCell f w1 = deleteCell f w2 := by
    unfold deleteCell
    exact if_congr (and_congr_right fun _ => hp) rfl rfl
  rw [run_fst_of_ok f w1 h1, run_fst_of_ok f w2 h2, hd]

/-- Witness for the amended C5 at `wFull` and `wFull2`. -/
theorem claim_C5_witness :
    (projectName ∈ wFull.projects ↔ projectName ∈ wFull2.projects)
    ∧ (run delete wFull).2 = Outcome.ok
    ∧ (run delete wFull2).2 = Outcome.ok
    ∧ (run delete wFull).1 = (run delete wFull2).1 :=
  ⟨by decide, by decide, by decide,
    claim_C5 delete wFull wFull2 (by decide) (by decide) (by decide)⟩

/-- C6: in every run the collaborators are invoked in stages, in order:
the guarded project deletion and selection, the settings object and
release-access client construction, the three imports, the verification
reads, and finally (only in completing runs) the region-definition update;
the trace is the concatenation of these stages. -/
theorem claim_C6 (f : Bool) (w : World) :
    ∃ v u, (run f w).1 =
        deleteCell f w
          ++ [Event.setCurrent projectName, Event.settingsInit, Event.ecoinventReleaseInit]
          ++ importEvents ++ v ++ u
      ∧ (∀ e ∈ v, ∃ n, e = Event.databaseRead n)
      ∧ ((run f w).2 = Outcome.ok →
          u = [Event.updateEcoinventDefinitions (systemModels.map dbName)])
      ∧ ((run f w).2 ≠ Outcome.ok → u = []) := by
  cases ho : (verifyLoop w systemModels).2 with
  | ok =>
      refine ⟨verifyEvents systemModels,
        [Event.updateEcoinventDefinitions (systemModels.map dbName)],
        ?_, verifyEvents_reads _, fun _ => rfl, ?_⟩
      · rw [run_fst_of_ok f w ho]
      · intro hne
        exact absurd (by rw [run_snd]; exact ho) hne
  | assertionError n =>
      refine ⟨(verifyLoop w systemModels).1, [],
        ?_, verifyLoop_fst_reads w _, ?_, fun _ => rfl⟩
      · rw [run_fst_of_err f w n ho]
        simp
      · intro hok
        rw [run_snd, ho] at hok
        exact Outcome.noConfusion hok

/-- C7: the location set computed during verification is exactly the set of
lower-cased `'location'` values of the database's datasets, and each of its
elements is a fixed point of lower-casing. -/
theorem claim_C7 (w : World) (name : String) :
    (∀ s, s ∈ locations w name ↔ ∃ ds ∈ w.database name, s = lower ds.location)
    ∧ (∀ s ∈ locations w name, lower s = s) := by
  refine ⟨fun s => mem_locations w name s, ?_⟩
  intro s hs
  rcases (mem_locations w name s).mp hs with ⟨ds, _, rfl⟩
  exact lower_idem ds.location

/-- C8: the deletion call occurs in the trace exactly when the `delete` flag
is true and the project is in the store; otherwise the run proceeds directly
to selecting the project, with no deletion. -/
theorem claim_C8 (f : Bool) (w : World) :
    (Event.deleteProject projectName true ∈ (run f w).1 ↔
      (f = true ∧ projectName ∈ w.projects))
    ∧ (¬ (f = true ∧ projectName ∈ w.projects) →
        ∃ rest, (run f w).1 = Event.setCurrent projectName :: rest) := by
  constructor
  · constructor
    · intro hmem
      have hf : Event.deleteProject projectName true ∈ (run f w).1.filter Event.isDelete := by
        rw [List.mem_filter]
        exact ⟨hmem, rfl⟩
      rw [run_filter_isDelete] at hf
      exact ((mem_deleteCell_iff f w _).mp hf).1
    · intro hc
      have hmm : Event.deleteProject projectName true ∈ deleteCell f w :=
        (mem_deleteCell_iff f w _).mpr ⟨hc, rfl⟩
      cases ho : (verifyLoop w systemModels).2 with
      | ok =>
          rw [run_fst_of_ok f w ho]
          exact List.mem_append_left _ (List.mem_append_left _
            (List.mem_append_left _ (List.mem_append_left _ hmm)))
      | assertionError n =>
          rw [run_fst_of_err f w n ho]
          exact List.mem_append_left _ (List.mem_append_left _
            (List.mem_append_left _ hmm))
  · intro hc
    have hd : deleteCell f w = [] := by
      unfold deleteCell
      rw [if_neg hc]
    cases ho : (verifyLoop w systemModels).2 with
    | ok =>
        refine ⟨[Event.settingsInit, Event.ecoinventReleaseInit] ++ importEvents
          ++ verifyEvents systemModels
          ++ [Event.updateEcoinventDefinitions (systemModels.map dbName)], ?_⟩
        rw [run_fst_of_ok f w ho, hd]
        simp
    | assertionError n =>
        refine ⟨[Event.settingsInit, Event.ecoinventReleaseInit] ++ importEvents
          ++ (verifyLoop w systemModels).1, ?_⟩
        rw [run_fst_of_err f w n ho, hd]
        simp

/-- C9: in a run that raises `AssertionError` in the verification loop, the
call to `update_ecoinvent_definitions` is never made. -/
theorem claim_C9 (f : Bool) (w : World) (n : String)
    (h : (run f w).2 = Outcome.assertionError n) :
    ∀ names, Event.updateEcoinventDefinitions names ∉ (run f w).1 := by
  intro names hmem
  rw [run_snd] at h
  have hf : Event.updateEcoinventDefinitions names ∈ (run f w).1.filter Event.isUpdate := by
    rw [List.mem_filter]
    exact ⟨hmem, rfl⟩
  rw [run_filter_isUpdate_of_err f w n h] at hf
  exact List.not_mem_nil _ hf

/-- Witness for C9: with all databases empty, the first assertion fails and
no update call appears in the trace. -/
theorem claim_C9_witness :
    (run delete wEmptyDb).2 = Outcome.assertionError "ecoinvent-3.8-cutoff"
    ∧ Event.updateEcoinventDefinitions
        ["ecoinvent-3.8-cutoff", "ecoinvent-3.8-apos", "ecoinvent-3.8-consequential"]
        ∉ (run delete wEmptyDb).1 :=
  ⟨by decide, claim_C9 delete wEmptyDb "ecoinvent-3.8-cutoff" (by decide) _⟩

/-- C10: the argument of the update call depends only on the constants
`VERSION` and `systemModels`: any two runs that complete normally make the
same single update call, with the fixed list of database names. -/
theorem claim_C10 (f1 f2 : Bool) (w1 w2 : World)
    (h1 : (run f1 w1).2 = Outcome.ok) (h2 : (run f2 w2).2 = Outcome.ok) :
    (run f1 w1).1.filter Event.isUpdate = (run f2 w2).1.filter Event.isUpdate
    ∧ (run f1 w1).1.filter Event.isUpdate =
        [Event.updateEcoinventDefinitions
          ["ecoinvent-3.8-cutoff", "ecoinvent-3.8-apos", "ecoinvent-3.8-consequential"]] := by
  rw [run_snd] at h1 h2
  rw [run_filter_isUpdate_of_ok f1 w1 h1, run_filter_isUpdate_of_ok f2 w2 h2]
  exact ⟨rfl, by decide⟩

/-- Witness for C10: two completing runs with different flags and worlds
make the identical update call. -/
theorem claim_C10_witness :
    (run delete wFull).2 = Outcome.ok
    ∧ (run false wFull2).2 = Outcome.ok
    ∧ ((run delete wFull).1.filter Event.isUpdate = (run false wFull2).1.filter Event.isUpdate
      ∧ (run delete wFull).1.filter Event.isUpdate =
          [Event.updateEcoinventDefinitions
            ["ecoinvent-3.8-cutoff", "ecoinvent-3.8-apos", "ecoinvent-3.8-consequential"]]) :=
  ⟨by decide, by decide, claim_C10 delete false wFull wFull2 (by decide) (by decide)⟩

end Rower
